import Mathlib

/-!
Shallow embedding of the standings-and-gap pipeline of
`src/data/transforms.py` (helped by the result-code validation step of
`src/data/loaders.py`) from the mind-the-gap repository.

Dataframes are embedded as lists of records; `sort_values` with a
multi-column key is a stable merge sort by a lexicographic key (pandas
uses a stable lexicographic sort for multi-column keys, and
`List.mergeSort` is stable); `groupby(...).cumsum()` / `cumcount()` are
prefix computations over the rows of the same group that appear earlier
in the frame; `groupby` on keys enumerates the distinct keys in sorted
order.  Dates are naturals (calendar order), seasons and team names are
strings (pandas compares them lexicographically), goals and points are
integers.
-/

namespace MindTheGap

/-- Stable sort of a list of rows by a key into a linearly ordered type.
Models `DataFrame.sort_values` with a multi-column (lexicographic) key. -/
def sortByKey {ρ κ : Type} [LinearOrder κ] (f : ρ → κ) (l : List ρ) : List ρ :=
  l.mergeSort (fun a b => decide (f a ≤ f b))

/-- A raw match record: one row of the match-level dataframe
(`Season, Date, HomeTeam, AwayTeam, FTHG, FTAG, FTR`). -/
structure MatchRow where
  season : String
  date : Nat
  homeTeam : String
  awayTeam : String
  fthg : Int
  ftag : Int
  ftr : Char
deriving DecidableEq, Repr

/-- `pandas.Series.map({'H': 3, 'D': 1, 'A': 0})`: codes outside the
mapping become missing values (NaN), embedded as `none`. -/
def ptsHome (c : Char) : Option Int :=
  if c = 'H' then some 3 else if c = 'D' then some 1 else if c = 'A' then some 0 else none

/-- `pandas.Series.map({'A': 3, 'D': 1, 'H': 0})` for the away side. -/
def ptsAway (c : Char) : Option Int :=
  if c = 'A' then some 3 else if c = 'D' then some 1 else if c = 'H' then some 0 else none

/-- One team's perspective of one match (a row of the long-format frame). -/
structure TeamResult where
  season : String
  date : Nat
  team : String
  opponent : String
  gf : Int
  ga : Int
  pts : Option Int
  venue : Char
deriving DecidableEq, Repr

/-- The home-side row created by `matches_to_long_format`. -/
def homeRow (m : MatchRow) : TeamResult :=
  ⟨m.season, m.date, m.homeTeam, m.awayTeam, m.fthg, m.ftag, ptsHome m.ftr, 'H'⟩

/-- The away-side row created by `matches_to_long_format`. -/
def awayRow (m : MatchRow) : TeamResult :=
  ⟨m.season, m.date, m.awayTeam, m.homeTeam, m.ftag, m.fthg, ptsAway m.ftr, 'A'⟩

/-- `matches_to_long_format` (transforms.py, lines 11-51): concatenate the
home-perspective and away-perspective rows, then sort by
`['Season', 'Date', 'Team']`. -/
def matches_to_long_format (df : List MatchRow) : List TeamResult :=
  sortByKey (fun r => toLex (r.season, toLex (r.date, r.team)))
    (df.map homeRow ++ df.map awayRow)

/-- Whether a match row carries a result code in `{H, D, A}`. -/
def validResult (m : MatchRow) : Bool :=
  decide (m.ftr = 'H' ∨ m.ftr = 'D' ∨ m.ftr = 'A')

/-- The result-code validation step of `load_season_csv`
(loaders.py, lines 64-72): rows whose `FTR` is outside `{H, D, A}` are
dropped; if such rows are more than half of the file (on integers,
`2 * invalid_count > len(df)`) the whole file is discarded. -/
def validateResults (df : List MatchRow) : List MatchRow :=
  if 2 * df.countP (fun m => !validResult m) > df.length then []
  else df.filter validResult

/-- The outcome code of a match disagrees with its score
(e.g. code `H` while the home side did not outscore the away side). -/
def outcomeMismatch (m : MatchRow) : Prop :=
  (m.ftr = 'H' ∧ ¬ m.ftag < m.fthg) ∨
  (m.ftr = 'A' ∧ ¬ m.fthg < m.ftag) ∨
  (m.ftr = 'D' ∧ m.fthg ≠ m.ftag)

instance (m : MatchRow) : Decidable (outcomeMismatch m) := by
  unfold outcomeMismatch; infer_instance

/-- A long-format row as consumed by `calculate_cumulative_stats`.  After
the loader's result-code filter every `Pts` entry is an integer (the
NaN-producing codes have been dropped), so the points column is embedded
as `Int`. -/
structure LongRow where
  season : String
  date : Nat
  team : String
  gf : Int
  ga : Int
  pts : Int
deriving DecidableEq, Repr

/-- Generic embedding of a per-group prefix computation on a dataframe
(`groupby(ks).cumsum()`, `groupby(ks).cumcount()`, ...): row `r` is sent
to `f r prev` where `prev` lists the earlier rows of the frame that share
`r`'s group key.  The first argument accumulates the rows already
visited. -/
def grouped {α β κ : Type} [DecidableEq κ] (key : α → κ) (f : α → List α → β) :
    List α → List α → List β
  | _, [] => []
  | seen, r :: rs =>
      f r (seen.filter fun x => decide (key x = key r)) :: grouped key f (seen ++ [r]) rs

/-- Restriction of `grouped` to the rows of a single group: the prefix of
earlier group members is threaded directly. -/
def groupOnly {α β : Type} (f : α → List α → β) : List α → List α → List β
  | _, [] => []
  | pre, r :: rs => f r pre :: groupOnly f (pre ++ [r]) rs

/-- A row of the cumulative-statistics frame: running totals per
(season, team) as of and including the row's match.  (The pass-through
match-level columns of the pandas frame are omitted; no claim reads
them.) -/
structure CumRow where
  season : String
  date : Nat
  team : String
  cumPts : Int
  cumGF : Int
  cumGA : Int
  cumGD : Int
  played : Nat
deriving DecidableEq, Repr

/-- The cumulative columns of one row, given the earlier rows `prev` of
the same (season, team) group: `CumPts/CumGF/CumGA` are running sums,
`CumGD = CumGF - CumGA`, `Played` is a 1-based running counter
(transforms.py, lines 69-73). -/
def cumF (r : LongRow) (prev : List LongRow) : CumRow :=
  { season := r.season, date := r.date, team := r.team
    cumPts := (prev.map (·.pts)).sum + r.pts
    cumGF := (prev.map (·.gf)).sum + r.gf
    cumGA := (prev.map (·.ga)).sum + r.ga
    cumGD := ((prev.map (·.gf)).sum + r.gf) - ((prev.map (·.ga)).sum + r.ga)
    played := prev.length + 1 }

/-- `calculate_cumulative_stats` (transforms.py, lines 54-75): sort by
`['Season', 'Team', 'Date']`, then per (season, team) group prefix-sum
points and goals and count games. -/
def calculate_cumulative_stats (df : List LongRow) : List CumRow :=
  grouped (fun r => (r.season, r.team)) cumF []
    (sortByKey (fun r => toLex (r.season, toLex (r.team, r.date))) df)

/-- The `groupby(['Season', 'Date', 'Team'])` key of a cumulative row. -/
def cumKey (r : CumRow) : String × Nat × String := (r.season, r.date, r.team)

/-- Maximum of a list of integers (`Series.max()`); `0` on the empty
list, which `team_dates` never hits (its groups are nonempty). -/
def listMaxI : List Int → Int
  | [] => 0
  | x :: xs => xs.foldl max x

/-- Maximum of a list of naturals (`Series.max()`). -/
def listMaxN : List Nat → Nat
  | [] => 0
  | x :: xs => xs.foldl max x

/-- A row of the per-(season, date, team) frame used by the standings
materializer (the `team_dates` frame and its forward-filled extension). -/
structure TDRow where
  season : String
  date : Nat
  team : String
  points : Int
  goalsFor : Int
  goalsAgainst : Int
  goalDiff : Int
  played : Nat
deriving DecidableEq, Repr

/-- The `team_dates` frame of `create_standings_snapshots`
(transforms.py, lines 90-101): group by (Season, Date, Team) and take the
maximum of each cumulative column separately.  `groupby` enumerates the
distinct keys in sorted order. -/
def team_dates (df : List CumRow) : List TDRow :=
  (sortByKey (fun k : String × Nat × String => toLex (k.1, toLex (k.2.1, k.2.2)))
      (df.map cumKey).dedup).map fun k =>
    let g := df.filter fun r => decide (cumKey r = k)
    { season := k.1, date := k.2.1, team := k.2.2
      points := listMaxI (g.map (·.cumPts))
      goalsFor := listMaxI (g.map (·.cumGF))
      goalsAgainst := listMaxI (g.map (·.cumGA))
      goalDiff := listMaxI (g.map (·.cumGD))
      played := listMaxN (g.map (·.played)) }

/-- The most recent row of team `t` strictly before date `d` in the
season frame `sd` (transforms.py, lines 119-126): filter, sort by date,
take the last row. -/
def lastBefore (sd : List TDRow) (t : String) (d : Nat) : Option TDRow :=
  (sortByKey (fun r : TDRow => r.date)
    (sd.filter fun r => decide (r.team = t ∧ r.date < d))).getLast?

/-- The body of the per-date forward-fill loop (transforms.py,
lines 111-130): the rows of date `d`, followed by one carried-forward
row (with the date updated) for every team of the season that has no row
on `d` but has an earlier row. -/
def ffDate (sd : List TDRow) (allTeams : List String) (d : Nat) : List TDRow :=
  let dateData := sd.filter fun r => decide (r.date = d)
  let extras := allTeams.filterMap fun t =>
    if dateData.any fun r => decide (r.team = t) then none
    else
      match lastBefore sd t d with
      | some last => some { last with date := d }
      | none => none
  dateData ++ extras

/-- The forward-fill loop of `create_standings_snapshots` for one season
(transforms.py, lines 105-130): run `ffDate` over the sorted distinct
match dates of the season, with the season's distinct teams. -/
def forwardFillSeason (sd : List TDRow) : List TDRow :=
  (sortByKey id (sd.map (·.date)).dedup).flatMap
    (ffDate sd ((sd.map (·.team)).dedup))

/-- The forward-fill loop over all seasons (transforms.py,
lines 104-132). -/
def forwardFill (td : List TDRow) : List TDRow :=
  ((td.map (·.season)).dedup).flatMap fun s =>
    forwardFillSeason (td.filter fun r => decide (r.season = s))

/-- A standings row: a `TDRow` with its assigned position. -/
structure SRow where
  season : String
  date : Nat
  team : String
  points : Int
  goalsFor : Int
  goalsAgainst : Int
  goalDiff : Int
  played : Nat
  position : Nat
deriving DecidableEq, Repr

/-- The ranking sort key of `create_standings_snapshots`
(transforms.py, lines 135-138): `['Season', 'Date', 'CumPts', 'CumGD',
'CumGF', 'Team']` ascending on season, date and team and descending
(negated) on points, goal difference and goals for. -/
def standingsKey (r : TDRow) :
    Lex (String × Lex (Nat × Lex (Int × Lex (Int × Lex (Int × String))))) :=
  toLex (r.season, toLex (r.date,
    toLex (-r.points, toLex (-r.goalDiff, toLex (-r.goalsFor, r.team)))))

/-- Attach a position: `groupby(['Season', 'Date']).cumcount() + 1`
applied to the row with its earlier group members `pre`
(transforms.py, line 141). -/
def fPos (r : TDRow) (pre : List TDRow) : SRow :=
  { season := r.season, date := r.date, team := r.team, points := r.points
    goalsFor := r.goalsFor, goalsAgainst := r.goalsAgainst, goalDiff := r.goalDiff
    played := r.played, position := pre.length + 1 }

/-- Forget the position of a standings row. -/
def dataOf (r : SRow) : TDRow :=
  ⟨r.season, r.date, r.team, r.points, r.goalsFor, r.goalsAgainst, r.goalDiff, r.played⟩

/-- `create_standings_snapshots` (transforms.py, lines 78-154):
aggregate to one row per (season, date, team), forward-fill, sort by the
ranking key, and assign positions within each (season, date) group. -/
def create_standings_snapshots (df : List CumRow) : List SRow :=
  grouped (fun r : TDRow => (r.season, r.date)) fPos []
    (sortByKey standingsKey (forwardFill (team_dates df)))

/-- A relegation-gap row. -/
structure GapRow where
  season : String
  date : Nat
  team : String
  position : Nat
  points : Int
  played : Nat
  gapTo17 : Int
  gamesInHand : Int
  gamesInHandAdjusted : Int
deriving DecidableEq, Repr

/-- One gap record (transforms.py, lines 188-201): `gap_to_17th =
safety_points - points`, `games_in_hand = max_played - played`,
`games_in_hand_adjusted = gap_to_17th - games_in_hand * 3`. -/
def mkGap (safetyPoints : Int) (maxPlayed : Nat) (r : SRow) : GapRow :=
  { season := r.season, date := r.date, team := r.team, position := r.position
    points := r.points, played := r.played
    gapTo17 := safetyPoints - r.points
    gamesInHand := (maxPlayed : Int) - (r.played : Int)
    gamesInHandAdjusted :=
      (safetyPoints - r.points) - ((maxPlayed : Int) - (r.played : Int)) * 3 }

/-- The body of the per-(season, date) loop of `calculate_relegation_gaps`
(transforms.py, lines 174-203): sort the group by position, look for the
row at position 17, and if present emit one gap record per row of the
group; otherwise skip the group. -/
def gapsForGroup (group : List SRow) : List GapRow :=
  let sorted := sortByKey (fun r : SRow => r.position) group
  match sorted.find? fun r => decide (r.position = 17) with
  | none => []
  | some safety => sorted.map (mkGap safety.points (listMaxN (sorted.map (·.played))))

/-- `calculate_relegation_gaps` (transforms.py, lines 157-208). -/
def calculate_relegation_gaps (standings : List SRow) : List GapRow :=
  (sortByKey (fun k : String × Nat => toLex (k.1, k.2))
      ((standings.map fun r => (r.season, r.date)).dedup)).flatMap fun k =>
    gapsForGroup (standings.filter fun r => decide (r.season = k.1 ∧ r.date = k.2))

/-- A gap row annotated with the tri-state eventual-survival label. -/
structure MarkedGapRow extends GapRow where
  eventuallySurvived : Option Bool
deriving DecidableEq, Repr

/-- The per-(season, team) final row used by `mark_survivors`
(transforms.py, lines 224-231): sort the final standings by
`['Season', 'Date']` and take each (season, team)'s last row. -/
def lastRowFor (fs : List SRow) (s t : String) : Option SRow :=
  ((sortByKey (fun r : SRow => toLex (r.season, r.date)) fs).filter
    fun r => decide (r.season = s ∧ r.team = t)).getLast?

/-- `mark_survivors` (transforms.py, lines 211-249): rows in danger
(`gap_to_17th > 0`) get `survivor_map.get((season, team), False)` where
the map sends a present (season, team) to `final position ≤ 17`; rows
with `gap_to_17th ≤ 0` get `None`. -/
def mark_survivors (gaps : List GapRow) (finalStandings : List SRow) : List MarkedGapRow :=
  gaps.map fun g =>
    { toGapRow := g
      eventuallySurvived :=
        if 0 < g.gapTo17 then
          some (((lastRowFor finalStandings g.season g.team).map
            fun r => decide (r.position ≤ 17)).getD false)
        else none }

/-- The tie-break total order of the ranking rule, read off the spec:
`a` precedes `b` when `a` has more points, or equal points and more goal
difference, or equal and more goals for, or all equal and an
alphabetically smaller (or equal) team name. -/
def tiebreakLE (a b : SRow) : Prop :=
  b.points < a.points ∨ (b.points = a.points ∧
    (b.goalDiff < a.goalDiff ∨ (b.goalDiff = a.goalDiff ∧
      (b.goalsFor < a.goalsFor ∨ (b.goalsFor = a.goalsFor ∧ a.team ≤ b.team)))))

/-! ## Concrete frames used by witnesses and counterexamples -/

/-- Three matches with the three outcome codes. -/
def demoMatches : List MatchRow :=
  [⟨"S", 1, "Arsenal", "Chelsea", 2, 0, 'H'⟩,
   ⟨"S", 1, "Leeds", "Derby", 1, 1, 'D'⟩,
   ⟨"S", 2, "Arsenal", "Leeds", 0, 1, 'A'⟩]

/-- A record whose outcome code `H` disagrees with its score 0-2. -/
def m0 : MatchRow := ⟨"S", 1, "HomeSide", "AwaySide", 0, 2, 'H'⟩

/-- Long-format rows in which team `A` plays twice on date 1: a 2-0 win
followed by a 0-3 loss, so its cumulative goal difference goes 2 then -1
while cumulative goals for/against end at 2/3. -/
def demoLong : List LongRow :=
  [⟨"S", 1, "A", 2, 0, 3⟩, ⟨"S", 1, "B", 0, 2, 0⟩,
   ⟨"S", 1, "A", 0, 3, 0⟩, ⟨"S", 1, "C", 3, 0, 3⟩]

/-- Long-format rows over two dates in which team `B` plays only on
date 1 and must be forward-filled onto date 2. -/
def demoLong2 : List LongRow :=
  [⟨"S", 1, "A", 1, 0, 3⟩, ⟨"S", 1, "B", 0, 1, 0⟩,
   ⟨"S", 2, "A", 2, 2, 1⟩, ⟨"S", 2, "C", 2, 2, 1⟩]

/-- A standings row at position `i` of a 17-team concrete table. -/
def srow17 (i : Nat) : SRow :=
  { season := "S", date := 1, team := "T" ++ toString i, points := (50 : Int) - i
    goalsFor := 20, goalsAgainst := 20, goalDiff := 0, played := 10, position := i }

/-- A concrete 17-row standings group (positions 1..17). -/
def standings17 : List SRow := (List.range' 1 17).map srow17

/-- A concrete 3-row standings group (positions 1..3, no position 17). -/
def standings3 : List SRow := (List.range' 1 3).map srow17

/-- A one-row final standings frame: team `A` finishes at position 17. -/
def demoFinal : List SRow :=
  [{ season := "S", date := 9, team := "A", points := 30, goalsFor := 20
     goalsAgainst := 40, goalDiff := -20, played := 38, position := 17 }]

/-- Two concrete gap rows for team `A`: one in danger, one safe. -/
def demoGaps : List GapRow :=
  [{ season := "S", date := 5, team := "A", position := 18, points := 10
     played := 20, gapTo17 := 3, gamesInHand := 0, gamesInHandAdjusted := 3 },
   { season := "S", date := 6, team := "A", position := 15, points := 20
     played := 21, gamesInHand := 0, gapTo17 := -2, gamesInHandAdjusted := -2 }]

/-! ## Theorems -/

theorem sortByKey_perm {ρ κ : Type} [LinearOrder κ] (f : ρ → κ) (l : List ρ) :
    List.Perm (sortByKey f l) l :=
  List.mergeSort_perm l _

theorem sortByKey_pairwise {ρ κ : Type} [LinearOrder κ] (f : ρ → κ) (l : List ρ) :
    (sortByKey f l).Pairwise (fun a b => f a ≤ f b) := by
  have h := @List.sorted_mergeSort ρ (fun a b : ρ => decide (f a ≤ f b))
    (fun a b c hab hbc => by
      simp only [decide_eq_true_eq] at *
      exact le_trans hab hbc)
    (fun a b => by
      rcases le_total (f a) (f b) with h | h <;> simp [h])
    l
  exact h.imp (fun hab => by simpa using hab)

theorem sortByKey_mem {ρ κ : Type} [LinearOrder κ] (f : ρ → κ) (l : List ρ) (a : ρ) :
    a ∈ sortByKey f l ↔ a ∈ l :=
  (sortByKey_perm f l).mem_iff

theorem grouped_filter {α β κ : Type} [DecidableEq κ] (key : α → κ) (f : α → List α → β)
    (keyOf : β → κ) (hf : ∀ r pre, keyOf (f r pre) = key r) (k : κ) :
    ∀ (l seen : List α),
      (grouped key f seen l).filter (fun b => decide (keyOf b = k)) =
        groupOnly f (seen.filter fun x => decide (key x = k))
          (l.filter fun x => decide (key x = k))
  | [], _ => rfl
  | r :: rs, seen => by
    have ih := grouped_filter key f keyOf hf k rs (seen ++ [r])
    by_cases hk : key r = k
    · simp [grouped, List.filter_cons, hf, hk, ih, List.filter_append, groupOnly]
    · simp [grouped, List.filter_cons, hf, hk, ih, List.filter_append]

theorem grouped_map {α β γ κ : Type} [DecidableEq κ] (key : α → κ) (f : α → List α → β)
    (g : β → γ) (h : α → γ) (hg : ∀ r pre, g (f r pre) = h r) :
    ∀ (l seen : List α), (grouped key f seen l).map g = l.map h
  | [], _ => rfl
  | r :: rs, seen => by
    simp only [grouped, List.map_cons, hg, grouped_map key f g h hg rs (seen ++ [r])]

theorem groupOnly_map {α β γ : Type} (f : α → List α → β) (g : β → γ) (h : α → γ)
    (hg : ∀ r pre, g (f r pre) = h r) :
    ∀ (l pre : List α), (groupOnly f pre l).map g = l.map h
  | [], _ => rfl
  | r :: rs, pre => by
    simp only [groupOnly, List.map_cons, hg, groupOnly_map f g h hg rs (pre ++ [r])]

theorem groupOnly_length {α β : Type} (f : α → List α → β) :
    ∀ (l pre : List α), (groupOnly f pre l).length = l.length
  | [], _ => rfl
  | r :: rs, pre => by
    simp only [groupOnly, List.length_cons, groupOnly_length f rs (pre ++ [r])]

theorem groupOnly_map_count {α β : Type} (f : α → List α → β) (cnt : β → Nat)
    (hc : ∀ r pre, cnt (f r pre) = pre.length + 1) :
    ∀ (l pre : List α), (groupOnly f pre l).map cnt = List.range' (pre.length + 1) l.length
  | [], _ => rfl
  | r :: rs, pre => by
    rw [groupOnly, List.map_cons, hc, List.length_cons, List.range'_succ,
      groupOnly_map_count f cnt hc rs (pre ++ [r])]
    simp [List.length_append]

theorem grouped_forall {α β κ : Type} [DecidableEq κ] (key : α → κ) (f : α → List α → β)
    (P : β → Prop) (hP : ∀ r pre, P (f r pre)) :
    ∀ (l seen : List α) (b : β), b ∈ grouped key f seen l → P b
  | r :: rs, seen, b, hb => by
    rcases List.mem_cons.mp hb with h | h
    · exact h ▸ hP r _
    · exact grouped_forall key f P hP rs (seen ++ [r]) b h

theorem groupOnly_chain_of_pairwise {α β : Type} (f : α → List α → β)
    (S : β → β → Prop) (R : α → α → Prop)
    (hfS : ∀ a b pa pb, R a b → S (f a pa) (f b pb)) :
    ∀ (l pre : List α), l.Pairwise R → List.Chain' S (groupOnly f pre l)
  | [], _, _ => List.chain'_nil
  | [r], pre, _ => by simp [groupOnly]
  | r :: r' :: rs, pre, hp => by
    rw [groupOnly, groupOnly, List.chain'_cons]
    constructor
    · exact hfS _ _ _ _ (List.rel_of_pairwise_cons hp (List.mem_cons_self _ _))
    · rw [show f r' (pre ++ [r]) :: groupOnly f ((pre ++ [r]) ++ [r']) rs =
        groupOnly f (pre ++ [r]) (r' :: rs) from rfl]
      exact groupOnly_chain_of_pairwise f S R hfS (r' :: rs) (pre ++ [r]) hp.of_cons

theorem lex_le_tail {α β : Type} [PartialOrder α] [LE β] {a b : α} {x y : β}
    (h : toLex (a, x) ≤ toLex (b, y)) (hab : a = b) : x ≤ y := by
  rcases (Prod.Lex.le_iff (a, x) (b, y)).mp h with h1 | h2
  · exact absurd h1 (by simp [hab])
  · exact h2.2

theorem countP_flatMap {α β : Type} (p : β → Bool) (g : α → List β) :
    ∀ l : List α, (l.flatMap g).countP p = (l.map fun a => (g a).countP p).sum
  | [] => rfl
  | a :: l => by
    simp [List.flatMap_cons, List.countP_append, countP_flatMap p g l]

theorem sum_single_nodup {α : Type} [DecidableEq α] (g : α → Nat) (x : α)
    (h0 : ∀ y, y ≠ x → g y = 0) :
    ∀ {l : List α}, l.Nodup → (l.map g).sum = if x ∈ l then g x else 0 := by
  intro l
  induction l with
  | nil => simp
  | cons a l ih =>
    intro hnd
    rcases List.nodup_cons.mp hnd with ⟨ha, hl⟩
    rw [List.map_cons, List.sum_cons, ih hl]
    by_cases hax : a = x
    · subst hax
      rw [if_neg ha, if_pos (List.mem_cons_self _ _)]
      omega
    · rw [h0 a hax]
      simp [List.mem_cons, hax, Ne.symm hax]

theorem countP_nodup_single {α : Type} [DecidableEq α] (x : α) (c : α → Bool) :
    ∀ {l : List α}, l.Nodup → l.countP (fun a => decide (a = x) && c a) =
      if x ∈ l ∧ c x then 1 else 0 := by
  intro l
  induction l with
  | nil => simp
  | cons a l ih =>
    intro hnd
    rcases List.nodup_cons.mp hnd with ⟨ha, hl⟩
    rw [List.countP_cons, ih hl]
    by_cases hax : a = x
    · subst hax
      have hx : ¬(a ∈ l ∧ c a = true) := fun h => ha h.1
      rw [if_neg hx]
      by_cases hc : c a <;> simp [hc, List.mem_cons]
    · simp [hax, List.mem_cons, Ne.symm hax]

theorem sortByKey_eq_nil {ρ κ : Type} [LinearOrder κ] (f : ρ → κ) (l : List ρ) :
    sortByKey f l = [] ↔ l = [] := by
  constructor
  · intro h
    have := (sortByKey_perm f l).length_eq
    rw [h] at this
    exact List.length_eq_zero.mp this.symm
  · intro h
    subst h
    exact (sortByKey_perm f []).eq_nil

/-- Every `team_dates` row's (season, date, team) is the key of some
input row. -/
theorem team_dates_mem (df : List CumRow) :
    ∀ r ∈ team_dates df, ∃ c ∈ df, c.season = r.season ∧ c.date = r.date ∧ c.team = r.team := by
  intro r hr
  rw [team_dates] at hr
  rcases List.mem_map.mp hr with ⟨k, hk, hrk⟩
  rcases List.mem_map.mp (List.mem_dedup.mp ((sortByKey_mem _ _ k).mp hk)) with ⟨c, hc, hck⟩
  subst hck
  subst hrk
  exact ⟨c, hc, rfl, rfl, rfl⟩

/-- Every input row's key is realized by some `team_dates` row. -/
theorem team_dates_mem_of (df : List CumRow) (c : CumRow) (hc : c ∈ df) :
    ∃ r ∈ team_dates df, r.season = c.season ∧ r.date = c.date ∧ r.team = c.team := by
  have hk : cumKey c ∈ sortByKey
      (fun k : String × Nat × String => toLex (k.1, toLex (k.2.1, k.2.2)))
      (df.map cumKey).dedup :=
    (sortByKey_mem _ _ _).mpr (List.mem_dedup.mpr (List.mem_map_of_mem cumKey hc))
  rw [team_dates]
  exact ⟨_, List.mem_map_of_mem _ hk, rfl, rfl, rfl⟩

/-- The `team_dates` frame has at most one row per (season, date, team). -/
theorem team_dates_countP (df : List CumRow) (s : String) (d : Nat) (t : String) :
    (team_dates df).countP
      (fun r => decide (r.season = s ∧ r.date = d ∧ r.team = t)) ≤ 1 := by
  rw [team_dates, List.countP_map]
  have hnd : (sortByKey (fun k : String × Nat × String => toLex (k.1, toLex (k.2.1, k.2.2)))
      (df.map cumKey).dedup).Nodup :=
    (sortByKey_perm _ _).nodup_iff.mpr (List.nodup_dedup _)
  refine le_of_eq_of_le (List.countP_congr (fun k _ => ?_) :
    _ = List.countP (fun k : String × Nat × String =>
      decide (k = (s, d, t)) && (fun _ => true) k) _) ?_
  · simp [Prod.ext_iff]
  · rw [countP_nodup_single (s, d, t) (fun _ => true) hnd]
    split <;> omega

/-- Every row produced by `ffDate` for date `d` carries date `d`. -/
theorem ffDate_date (sd : List TDRow) (allTeams : List String) (d : Nat) :
    ∀ r ∈ ffDate sd allTeams d, r.date = d := by
  intro r hr
  simp only [ffDate] at hr
  rcases List.mem_append.mp hr with h | h
  · exact of_decide_eq_true (List.mem_filter.mp h).2
  · rcases List.mem_filterMap.mp h with ⟨t', _, hgt⟩
    split at hgt
    · exact absurd hgt (by simp)
    · split at hgt
      · injection hgt with h'
        subst h'
        rfl
      · exact absurd hgt (by simp)

/-- Rows carried by `lastBefore` come from the season frame. -/
theorem lastBefore_mem (sd : List TDRow) (t : String) (d : Nat) (r : TDRow)
    (h : lastBefore sd t d = some r) : r ∈ sd ∧ r.team = t ∧ r.date < d := by
  have hm := List.mem_of_getLast?_eq_some h
  rw [sortByKey_mem] at hm
  have := List.mem_filter.mp hm
  refine ⟨this.1, ?_, ?_⟩
  · exact (of_decide_eq_true this.2).1
  · exact (of_decide_eq_true this.2).2

/-- Every row produced by `ffDate` comes with the season of the frame. -/
theorem ffDate_season (sd : List TDRow) (allTeams : List String) (d : Nat) (s : String)
    (hsd : ∀ r ∈ sd, r.season = s) :
    ∀ r ∈ ffDate sd allTeams d, r.season = s := by
  intro r hr
  simp only [ffDate] at hr
  rcases List.mem_append.mp hr with h | h
  · exact hsd r (List.mem_of_mem_filter h)
  · rcases List.mem_filterMap.mp h with ⟨t', _, hgt⟩
    split at hgt
    · exact absurd hgt (by simp)
    · split at hgt
      · next last hlast =>
        injection hgt with h'
        subst h'
        exact hsd last (lastBefore_mem sd t' d last hlast).1
      · exact absurd hgt (by simp)

/-- Count of the carried-forward rows of one `ffDate` iteration that hit
team `t`: one exactly when `t` is a season team without a row on the date
but with an earlier row. -/
theorem extras_countP (sd : List TDRow) (s : String) (d : Nat) (t : String)
    (allTeams : List String) (hnd : allTeams.Nodup)
    (hsd : ∀ r ∈ sd, r.season = s) :
    (allTeams.filterMap fun t' =>
        if (sd.filter fun r => decide (r.date = d)).any fun r => decide (r.team = t') then
          none
        else
          match lastBefore sd t' d with
          | some last => some { last with date := d }
          | none => none).countP
        (fun r => decide (r.season = s ∧ r.date = d ∧ r.team = t)) =
      if t ∈ allTeams ∧
          (!((sd.filter fun r => decide (r.date = d)).any fun r => decide (r.team = t)) &&
            (lastBefore sd t d).isSome) then 1 else 0 := by
  rw [List.countP_filterMap]
  refine ((List.countP_congr (fun t' _ => ?_) :
    _ = List.countP (fun t' => decide (t' = t) &&
      (!((sd.filter fun r => decide (r.date = d)).any fun r => decide (r.team = t')) &&
        (lastBefore sd t' d).isSome)) _)).trans ?_
  case refine_2 => exact countP_nodup_single t _ hnd
  case refine_1 =>
    split
    · next hany => simp [hany]
    · next hany =>
      cases hlb : lastBefore sd t' d with
      | none => simp [hlb]
      | some last =>
        next hany =>
        have hl := lastBefore_mem sd t' d last hlb
        have hseason := hsd last hl.1
        have hanyf : ((sd.filter fun r => decide (r.date = d)).any
            fun r => decide (r.team = t')) = false := by
          cases h : ((sd.filter fun r => decide (r.date = d)).any
              fun r => decide (r.team = t'))
          · rfl
          · exact absurd h hany
        simp only [hlb, Option.isSome_some, Bool.and_true, hanyf, Bool.not_false]
        simp [hseason, hl.2.1]

/-- Count of the rows of the `ffDate` iteration at the date itself:
one exactly when team `t` has a row on or before `d` in the season. -/
theorem ffDate_countP_self (sd : List TDRow) (s : String) (d : Nat) (t : String)
    (hsd : ∀ r ∈ sd, r.season = s)
    (h1 : sd.countP (fun r => decide (r.date = d ∧ r.team = t)) ≤ 1) :
    (ffDate sd ((sd.map (·.team)).dedup) d).countP
        (fun r => decide (r.season = s ∧ r.date = d ∧ r.team = t)) =
      if ∃ r ∈ sd, r.team = t ∧ r.date ≤ d then 1 else 0 := by
  have hA : (sd.filter fun r => decide (r.date = d)).countP
      (fun r => decide (r.season = s ∧ r.date = d ∧ r.team = t)) =
      sd.countP (fun r => decide (r.date = d ∧ r.team = t)) := by
    rw [List.countP_filter]
    refine List.countP_congr ?_
    intro r hr
    have hs := hsd r hr
    simp [hs]
    tauto
  rw [ffDate, List.countP_append, hA,
    extras_countP sd s d t ((sd.map (·.team)).dedup) (List.nodup_dedup _) hsd]
  by_cases hx : ∃ r ∈ sd, r.date = d ∧ r.team = t
  · have hpos : 0 < sd.countP (fun r => decide (r.date = d ∧ r.team = t)) := by
      refine List.countP_pos_iff.mpr ?_
      obtain ⟨r, hr, h⟩ := hx
      exact ⟨r, hr, by simp [h.1, h.2]⟩
    have hcnt : sd.countP (fun r => decide (r.date = d ∧ r.team = t)) = 1 := by omega
    have hany : ((sd.filter fun r => decide (r.date = d)).any fun r => decide (r.team = t))
        = true := by
      rw [List.any_eq_true]
      obtain ⟨r, hr, hrd, hrt⟩ := hx
      exact ⟨r, List.mem_filter.mpr ⟨hr, by simp [hrd]⟩, by simp [hrt]⟩
    have hle : ∃ r ∈ sd, r.team = t ∧ r.date ≤ d := by
      obtain ⟨r, hr, hrd, hrt⟩ := hx
      exact ⟨r, hr, hrt, le_of_eq hrd⟩
    rw [hcnt, if_pos hle, if_neg (by simp [hany])]
  · have hcnt : sd.countP (fun r => decide (r.date = d ∧ r.team = t)) = 0 := by
      refine List.countP_eq_zero.mpr ?_
      intro r hr
      simp only [decide_eq_true_eq]
      exact fun h => hx ⟨r, hr, h⟩
    have hany : ((sd.filter fun r => decide (r.date = d)).any fun r => decide (r.team = t))
        = false := by
      rw [List.any_eq_false]
      intro r hr
      have hm := List.mem_filter.mp hr
      simp only [decide_eq_true_eq] at hm ⊢
      exact fun h => hx ⟨r, hm.1, hm.2, h⟩
    rw [hcnt]
    by_cases hy : ∃ r ∈ sd, r.team = t ∧ r.date < d
    · have hmemt : t ∈ (sd.map (·.team)).dedup := by
        rw [List.mem_dedup, List.mem_map]
        obtain ⟨r, hr, hrt, _⟩ := hy
        exact ⟨r, hr, hrt⟩
      have hsome : (lastBefore sd t d).isSome = true := by
        rw [lastBefore, List.getLast?_isSome, Ne, sortByKey_eq_nil]
        intro hnil
        obtain ⟨r, hr, hrt, hrd⟩ := hy
        have : r ∈ sd.filter fun r => decide (r.team = t ∧ r.date < d) :=
          List.mem_filter.mpr ⟨hr, by simp [hrt, hrd]⟩
        rw [hnil] at this
        cases this
      have hle : ∃ r ∈ sd, r.team = t ∧ r.date ≤ d := by
        obtain ⟨r, hr, hrt, hrd⟩ := hy
        exact ⟨r, hr, hrt, le_of_lt hrd⟩
      rw [if_pos hle, if_pos ⟨hmemt, by simp [hany, hsome]⟩]
    · have hnone : (lastBefore sd t d).isSome = false := by
        rw [lastBefore]
        have hnil : sd.filter (fun r => decide (r.team = t ∧ r.date < d)) = [] := by
          rw [List.filter_eq_nil_iff]
          intro r hr
          simp only [decide_eq_true_eq]
          exact fun h => hy ⟨r, hr, h⟩
        rw [hnil, (sortByKey_eq_nil (fun r : TDRow => r.date) ([] : List TDRow)).mpr rfl]
        rfl
      have hnole : ¬ ∃ r ∈ sd, r.team = t ∧ r.date ≤ d := by
        rintro ⟨r, hr, hrt, hrd⟩
        rcases lt_or_eq_of_le hrd with h | h
        · exact hy ⟨r, hr, hrt, h⟩
        · exact hx ⟨r, hr, h, hrt⟩
      rw [if_neg hnole, if_neg (by simp [hnone])]

/-- Rows of `forwardFillSeason` carry the season of the frame. -/
theorem forwardFillSeason_season (sd : List TDRow) (s : String)
    (hsd : ∀ r ∈ sd, r.season = s) :
    ∀ r ∈ forwardFillSeason sd, r.season = s := by
  intro r hr
  rw [forwardFillSeason] at hr
  rcases List.mem_flatMap.mp hr with ⟨d', _, hmem⟩
  exact ffDate_season sd _ d' s hsd r hmem

/-- Per-season forward-fill count: team `t` has exactly one row on date
`d` when `d` is a match date of the season and `t` has a row on or
before `d`; otherwise none. -/
theorem forwardFillSeason_countP (sd : List TDRow) (s : String) (d : Nat) (t : String)
    (hsd : ∀ r ∈ sd, r.season = s)
    (h1 : sd.countP (fun r => decide (r.date = d ∧ r.team = t)) ≤ 1) :
    (forwardFillSeason sd).countP
        (fun r => decide (r.season = s ∧ r.date = d ∧ r.team = t)) =
      if (∃ r ∈ sd, r.date = d) ∧ (∃ r ∈ sd, r.team = t ∧ r.date ≤ d) then 1 else 0 := by
  rw [forwardFillSeason, countP_flatMap]
  have hnd : (sortByKey id (sd.map (·.date)).dedup).Nodup :=
    (sortByKey_perm _ _).nodup_iff.mpr (List.nodup_dedup _)
  have h0 : ∀ d', d' ≠ d → (ffDate sd ((sd.map (·.team)).dedup) d').countP
      (fun r => decide (r.season = s ∧ r.date = d ∧ r.team = t)) = 0 := by
    intro d' hd'
    refine List.countP_eq_zero.mpr ?_
    intro r hr
    have hdate := ffDate_date sd _ d' r hr
    simp only [decide_eq_true_eq]
    rintro ⟨-, h2, -⟩
    exact hd' (hdate ▸ h2)
  rw [sum_single_nodup _ d h0 hnd]
  have hmem : d ∈ sortByKey id (sd.map (·.date)).dedup ↔ ∃ r ∈ sd, r.date = d := by
    rw [sortByKey_mem, List.mem_dedup, List.mem_map]
  rw [ffDate_countP_self sd s d t hsd h1]
  by_cases hd : ∃ r ∈ sd, r.date = d
  · rw [if_pos (hmem.mpr hd)]
    by_cases hy : ∃ r ∈ sd, r.team = t ∧ r.date ≤ d
    · rw [if_pos hy, if_pos ⟨hd, hy⟩]
    · rw [if_neg hy, if_neg (fun h => hy h.2)]
  · rw [if_neg (fun h => hd (hmem.mp h)), if_neg (fun h => hd h.1)]

/-- Forward-fill count over all seasons. -/
theorem forwardFill_countP (td : List TDRow) (s : String) (d : Nat) (t : String)
    (h1 : td.countP (fun r => decide (r.season = s ∧ r.date = d ∧ r.team = t)) ≤ 1) :
    (forwardFill td).countP
        (fun r => decide (r.season = s ∧ r.date = d ∧ r.team = t)) =
      if (∃ r ∈ td, r.season = s ∧ r.date = d) ∧
          (∃ r ∈ td, r.season = s ∧ r.team = t ∧ r.date ≤ d) then 1 else 0 := by
  rw [forwardFill, countP_flatMap]
  have hnd : ((td.map (·.season)).dedup).Nodup := List.nodup_dedup _
  have h0 : ∀ s', s' ≠ s →
      (forwardFillSeason (td.filter fun r => decide (r.season = s'))).countP
        (fun r => decide (r.season = s ∧ r.date = d ∧ r.team = t)) = 0 := by
    intro s' hs'
    refine List.countP_eq_zero.mpr ?_
    intro r hr
    have hse := forwardFillSeason_season _ s'
      (fun x hx => of_decide_eq_true (List.mem_filter.mp hx).2) r hr
    simp only [decide_eq_true_eq]
    rintro ⟨h2, -, -⟩
    exact hs' (hse ▸ h2)
  rw [sum_single_nodup _ s h0 hnd]
  have hsd : ∀ r ∈ td.filter (fun r => decide (r.season = s)), r.season = s :=
    fun x hx => of_decide_eq_true (List.mem_filter.mp hx).2
  have hcnt : (td.filter fun r => decide (r.season = s)).countP
      (fun r => decide (r.date = d ∧ r.team = t)) ≤ 1 := by
    rw [List.countP_filter]
    calc List.countP (fun r => decide (r.date = d ∧ r.team = t) &&
          decide (r.season = s)) td
        = td.countP (fun r => decide (r.season = s ∧ r.date = d ∧ r.team = t)) := by
          refine List.countP_congr ?_
          intro r _
          simp
          tauto
      _ ≤ 1 := h1
  rw [forwardFillSeason_countP (td.filter fun r => decide (r.season = s)) s d t hsd hcnt]
  have hmem : s ∈ (td.map (·.season)).dedup ↔ ∃ r ∈ td, r.season = s := by
    rw [List.mem_dedup, List.mem_map]
  have hiff1 : (∃ r ∈ td.filter (fun r => decide (r.season = s)), r.date = d) ↔
      ∃ r ∈ td, r.season = s ∧ r.date = d := by
    constructor
    · rintro ⟨r, hr, hrd⟩
      exact ⟨r, List.mem_of_mem_filter hr, hsd r hr, hrd⟩
    · rintro ⟨r, hr, hrs, hrd⟩
      exact ⟨r, List.mem_filter.mpr ⟨hr, by simp [hrs]⟩, hrd⟩
  have hiff2 : (∃ r ∈ td.filter (fun r => decide (r.season = s)), r.team = t ∧ r.date ≤ d) ↔
      ∃ r ∈ td, r.season = s ∧ r.team = t ∧ r.date ≤ d := by
    constructor
    · rintro ⟨r, hr, hrd⟩
      exact ⟨r, List.mem_of_mem_filter hr, hsd r hr, hrd⟩
    · rintro ⟨r, hr, hrs, hrd⟩
      exact ⟨r, List.mem_filter.mpr ⟨hr, by simp [hrs]⟩, hrd⟩
  by_cases hs : ∃ r ∈ td, r.season = s
  · rw [if_pos (hmem.mpr hs)]
    by_cases hone : ∃ r ∈ td, r.season = s ∧ r.date = d
    · by_cases htwo : ∃ r ∈ td, r.season = s ∧ r.team = t ∧ r.date ≤ d
      · rw [if_pos ⟨hiff1.mpr hone, hiff2.mpr htwo⟩, if_pos ⟨hone, htwo⟩]
      · rw [if_neg (fun h => htwo (hiff2.mp h.2)), if_neg (fun h => htwo h.2)]
    · rw [if_neg (fun h => hone (hiff1.mp h.1)), if_neg (fun h => hone h.1)]
  · have hone : ¬ ∃ r ∈ td, r.season = s ∧ r.date = d := by
      rintro ⟨r, hr, hrs, -⟩
      exact hs ⟨r, hr, hrs⟩
    rw [if_neg (fun h => hs (hmem.mp h)), if_neg (fun h => hone h.1)]

/-- Counting standings rows via a predicate that ignores the position
column passes through position assignment and the ranking sort. -/
theorem standings_countP_eq (df : List CumRow) (q : TDRow → Bool) :
    (create_standings_snapshots df).countP (fun r => q (dataOf r)) =
      (forwardFill (team_dates df)).countP q := by
  rw [create_standings_snapshots]
  have hm := grouped_map (fun r : TDRow => (r.season, r.date)) fPos dataOf id
    (fun _ _ => rfl)
    (sortByKey standingsKey (forwardFill (team_dates df))) []
  calc (grouped (fun r : TDRow => (r.season, r.date)) fPos []
        (sortByKey standingsKey (forwardFill (team_dates df)))).countP
          (fun r => q (dataOf r))
      = ((grouped (fun r : TDRow => (r.season, r.date)) fPos []
          (sortByKey standingsKey (forwardFill (team_dates df)))).map dataOf).countP q :=
        (List.countP_map q dataOf _).symm
    _ = (sortByKey standingsKey (forwardFill (team_dates df))).countP q := by
        rw [hm, List.map_id]
    _ = (forwardFill (team_dates df)).countP q := (sortByKey_perm _ _).countP_eq q

/-- C7: fix a season `s` and a date `d` on which some match of `s` was
played.  In the output of `create_standings_snapshots`, every team with a
cumulative record on or before `d` has exactly one standings row for
`(s, d)` (its record forward-filled when it did not play on `d`), and a
team with no record by `d` has no row for `(s, d)`. -/
theorem standings_forward_fill_rows (df : List CumRow) (s : String) (d : Nat) (t : String)
    (hd : ∃ c ∈ df, c.season = s ∧ c.date = d) :
    ((∃ c ∈ df, c.season = s ∧ c.team = t ∧ c.date ≤ d) →
      (create_standings_snapshots df).countP
        (fun r => decide (r.season = s ∧ r.date = d ∧ r.team = t)) = 1) ∧
    ((¬ ∃ c ∈ df, c.season = s ∧ c.team = t ∧ c.date ≤ d) →
      (create_standings_snapshots df).countP
        (fun r => decide (r.season = s ∧ r.date = d ∧ r.team = t)) = 0) := by
  have hq : (create_standings_snapshots df).countP
      (fun r => decide (r.season = s ∧ r.date = d ∧ r.team = t)) =
      (forwardFill (team_dates df)).countP
        (fun x : TDRow => decide (x.season = s ∧ x.date = d ∧ x.team = t)) :=
    standings_countP_eq df (fun x : TDRow => decide (x.season = s ∧ x.date = d ∧ x.team = t))
  rw [hq, forwardFill_countP _ s d t (team_dates_countP df s d t)]
  have hd' : ∃ r ∈ team_dates df, r.season = s ∧ r.date = d := by
    obtain ⟨c, hc, h1, h2⟩ := hd
    obtain ⟨r, hr, e1, e2, _⟩ := team_dates_mem_of df c hc
    exact ⟨r, hr, e1.trans h1, e2.trans h2⟩
  have hifft : (∃ r ∈ team_dates df, r.season = s ∧ r.team = t ∧ r.date ≤ d) ↔
      ∃ c ∈ df, c.season = s ∧ c.team = t ∧ c.date ≤ d := by
    constructor
    · rintro ⟨r, hr, hrs, hrt, hrd⟩
      obtain ⟨c, hc, h1, h2, h3⟩ := team_dates_mem df r hr
      exact ⟨c, hc, h1.trans hrs, h3.trans hrt, by rw [h2]; exact hrd⟩
    · rintro ⟨c, hc, h1, h2, h3⟩
      obtain ⟨r, hr, e1, e2, e3⟩ := team_dates_mem_of df c hc
      exact ⟨r, hr, e1.trans h1, e3.trans h2, by rw [e2]; exact h3⟩
  refine ⟨?_, ?_⟩
  · intro hex
    rw [if_pos ⟨hd', hifft.mpr hex⟩]
  · intro hnex
    rw [if_neg (fun h => hnex (hifft.mp h.2))]

/-- The filtered restriction of the standings to one (season, date)
group is the group-only position assignment over the sorted, filtered
forward-filled rows. -/
theorem standings_filter (df : List CumRow) (s : String) (d : Nat) :
    (create_standings_snapshots df).filter (fun r => decide (r.season = s ∧ r.date = d)) =
      groupOnly fPos []
        ((sortByKey standingsKey (forwardFill (team_dates df))).filter
          fun x => decide (x.season = s ∧ x.date = d)) := by
  have h := grouped_filter (fun r : TDRow => (r.season, r.date)) fPos
    (fun b : SRow => (b.season, b.date)) (fun _ _ => rfl) (s, d)
    (sortByKey standingsKey (forwardFill (team_dates df))) []
  have e1 : (fun b : SRow => decide (b.season = s ∧ b.date = d)) =
      (fun b : SRow => decide ((b.season, b.date) = (s, d))) := by
    funext b; exact decide_eq_decide.mpr (by simp)
  have e2 : (fun x : TDRow => decide (x.season = s ∧ x.date = d)) =
      (fun x : TDRow => decide ((x.season, x.date) = (s, d))) := by
    funext x; exact decide_eq_decide.mpr (by simp)
  rw [create_standings_snapshots, e1, h, e2]
  rfl

/-- C1: in every (season, date) group of `create_standings_snapshots`,
the positions along the group are exactly 1, 2, ..., N (no repeats, no
gaps, N = the number of rows, which list pairwise-distinct teams), and
reading the rows in that order realizes the tie-break total order:
points descending, then goal difference descending, then goals-for
descending, then team name ascending. -/
theorem standings_positions_dense_and_ordered (df : List CumRow) (s : String) (d : Nat) :
    (((create_standings_snapshots df).filter
        fun r => decide (r.season = s ∧ r.date = d)).map (·.position)) =
      List.range' 1 ((create_standings_snapshots df).filter
        fun r => decide (r.season = s ∧ r.date = d)).length ∧
    List.Chain' tiebreakLE ((create_standings_snapshots df).filter
      fun r => decide (r.season = s ∧ r.date = d)) ∧
    (((create_standings_snapshots df).filter
        fun r => decide (r.season = s ∧ r.date = d)).map (·.team)).Nodup := by
  have hfilter := standings_filter df s d
  set lf := (sortByKey standingsKey (forwardFill (team_dates df))).filter
    (fun x : TDRow => decide (x.season = s ∧ x.date = d)) with hlf
  have hkeys : ∀ x ∈ lf, x.season = s ∧ x.date = d := fun x hx => by
    simpa using (List.mem_filter.mp hx).2
  refine ⟨?_, ?_, ?_⟩
  · rw [hfilter, groupOnly_length,
      groupOnly_map_count fPos (fun b : SRow => b.position) (fun _ _ => rfl) lf []]
    rfl
  · rw [hfilter]
    have hp := (sortByKey_pairwise standingsKey (forwardFill (team_dates df))).filter
      (fun x : TDRow => decide (x.season = s ∧ x.date = d))
    have hpair : lf.Pairwise (fun a b : TDRow =>
        b.points < a.points ∨ (b.points = a.points ∧
          (b.goalDiff < a.goalDiff ∨ (b.goalDiff = a.goalDiff ∧
            (b.goalsFor < a.goalsFor ∨ (b.goalsFor = a.goalsFor ∧ a.team ≤ b.team)))))) := by
      refine hp.imp_of_mem ?_
      intro a b ha hb hab
      have hka := hkeys a ha
      have hkb := hkeys b hb
      have h1 := lex_le_tail hab (hka.1.trans hkb.1.symm)
      have h2 := lex_le_tail h1 (hka.2.trans hkb.2.symm)
      rcases (Prod.Lex.le_iff _ _).mp h2 with hp1 | ⟨hp1, h3⟩
      · exact Or.inl (by simpa using hp1)
      · refine Or.inr ⟨by simpa using hp1.symm, ?_⟩
        rcases (Prod.Lex.le_iff _ _).mp h3 with hg1 | ⟨hg1, h4⟩
        · exact Or.inl (by simpa using hg1)
        · refine Or.inr ⟨by simpa using hg1.symm, ?_⟩
          rcases (Prod.Lex.le_iff _ _).mp h4 with hf1 | ⟨hf1, h5⟩
          · exact Or.inl (by simpa using hf1)
          · exact Or.inr ⟨by simpa using hf1.symm, by simpa using h5⟩
    refine groupOnly_chain_of_pairwise fPos tiebreakLE _ ?_ lf [] hpair
    intro a b pa pb hab
    exact hab
  · rw [List.nodup_iff_count_le_one]
    intro a
    calc List.count a (((create_standings_snapshots df).filter
            fun r => decide (r.season = s ∧ r.date = d)).map (·.team))
        = (((create_standings_snapshots df).filter
            fun r => decide (r.season = s ∧ r.date = d)).map (·.team)).countP (· == a) :=
          List.count_eq_countP a _
      _ = ((create_standings_snapshots df).filter
            fun r => decide (r.season = s ∧ r.date = d)).countP (fun r => r.team == a) :=
          List.countP_map _ _ _
      _ = (create_standings_snapshots df).countP
            (fun r => (r.team == a) && decide (r.season = s ∧ r.date = d)) := by
          rw [List.countP_filter]
      _ = (create_standings_snapshots df).countP
            (fun r => decide (r.season = s ∧ r.date = d ∧ r.team = a)) := by
          refine List.countP_congr ?_
          intro r _
          simp
          tauto
      _ = (forwardFill (team_dates df)).countP
            (fun x : TDRow => decide (x.season = s ∧ x.date = d ∧ x.team = a)) :=
          standings_countP_eq df
            (fun x : TDRow => decide (x.season = s ∧ x.date = d ∧ x.team = a))
      _ ≤ 1 := by
          rw [forwardFill_countP _ s d a (team_dates_countP df s d a)]
          split <;> omega

theorem foldr_max_perm {l l' : List Nat} (h : List.Perm l l') :
    l.foldr max 0 = l'.foldr max 0 := by
  induction h with
  | nil => rfl
  | cons x _ ih => simp [List.foldr_cons, ih]
  | swap x y l => simp [List.foldr_cons, max_left_comm]
  | trans _ _ ih1 ih2 => exact ih1.trans ih2

theorem foldl_max_eq : ∀ (xs : List Nat) (x : Nat), xs.foldl max x = max x (xs.foldr max 0)
  | [], x => by simp
  | y :: ys, x => by
    rw [List.foldl_cons, foldl_max_eq ys (max x y), List.foldr_cons, max_assoc]

theorem listMaxN_eq_foldr : ∀ l : List Nat, listMaxN l = l.foldr max 0
  | [] => rfl
  | x :: xs => by
    rw [listMaxN, foldl_max_eq xs x, List.foldr_cons]

theorem listMaxN_perm {l l' : List Nat} (h : List.Perm l l') : listMaxN l = listMaxN l' := by
  rw [listMaxN_eq_foldr, listMaxN_eq_foldr, foldr_max_perm h]

theorem flatMap_single_nodup {α β : Type} [DecidableEq α] (g : α → List β) (x : α)
    (h0 : ∀ y, y ≠ x → g y = []) :
    ∀ {l : List α}, l.Nodup → l.flatMap g = if x ∈ l then g x else [] := by
  intro l
  induction l with
  | nil => simp
  | cons a l ih =>
    intro hnd
    rcases List.nodup_cons.mp hnd with ⟨ha, hl⟩
    rw [List.flatMap_cons, ih hl]
    by_cases hax : a = x
    · subst hax
      rw [if_neg ha, if_pos (List.mem_cons_self _ _), List.append_nil]
    · rw [h0 a hax]
      simp [List.mem_cons, hax, Ne.symm hax]

/-- Every gap record of a group inherits the group's (season, date). -/
theorem gapsForGroup_keys (group : List SRow) (s : String) (d : Nat)
    (hg : ∀ r ∈ group, r.season = s ∧ r.date = d) :
    ∀ gr ∈ gapsForGroup group, gr.season = s ∧ gr.date = d := by
  intro gr hgr
  simp only [gapsForGroup] at hgr
  split at hgr
  · cases hgr
  · rcases List.mem_map.mp hgr with ⟨r, hr, hrg⟩
    have := hg r ((sortByKey_mem _ _ r).mp hr)
    subst hrg
    exact this

/-- Localization of `calculate_relegation_gaps`: the output rows of one
(season, date) are exactly the per-group computation on that group. -/
theorem gaps_filter_key (standings : List SRow) (s : String) (d : Nat) :
    (calculate_relegation_gaps standings).filter
        (fun g => decide (g.season = s ∧ g.date = d)) =
      if ∃ r ∈ standings, r.season = s ∧ r.date = d then
        gapsForGroup (standings.filter fun r => decide (r.season = s ∧ r.date = d))
      else [] := by
  rw [calculate_relegation_gaps, List.filter_flatMap]
  have hnd : (sortByKey (fun k : String × Nat => toLex (k.1, k.2))
      ((standings.map fun r => (r.season, r.date)).dedup)).Nodup :=
    (sortByKey_perm _ _).nodup_iff.mpr (List.nodup_dedup _)
  have h0 : ∀ k : String × Nat, k ≠ (s, d) →
      (gapsForGroup (standings.filter
        fun r => decide (r.season = k.1 ∧ r.date = k.2))).filter
        (fun g => decide (g.season = s ∧ g.date = d)) = [] := by
    intro k hk
    rw [List.filter_eq_nil_iff]
    intro gr hgr
    have := gapsForGroup_keys _ k.1 k.2
      (fun r hr => by simpa using (List.mem_filter.mp hr).2) gr hgr
    simp only [decide_eq_true_eq]
    rintro ⟨h1, h2⟩
    exact hk (by rw [Prod.ext_iff]; exact ⟨this.1 ▸ h1, this.2 ▸ h2⟩)
  rw [flatMap_single_nodup _ (s, d) h0 hnd]
  have hmem : (s, d) ∈ sortByKey (fun k : String × Nat => toLex (k.1, k.2))
      ((standings.map fun r => (r.season, r.date)).dedup) ↔
      ∃ r ∈ standings, r.season = s ∧ r.date = d := by
    rw [sortByKey_mem, List.mem_dedup, List.mem_map]
    constructor
    · rintro ⟨r, hr, hrk⟩
      exact ⟨r, hr, congrArg Prod.fst hrk, congrArg Prod.snd hrk⟩
    · rintro ⟨r, hr, h1, h2⟩
      exact ⟨r, hr, by rw [h1, h2]⟩
  by_cases hx : ∃ r ∈ standings, r.season = s ∧ r.date = d
  · rw [if_pos (hmem.mpr hx), if_pos hx,
      List.filter_eq_self.mpr (fun gr hgr => by
        have := gapsForGroup_keys _ s d
          (fun r hr => by simpa using (List.mem_filter.mp hr).2) gr hgr
        simp [this.1, this.2])]
  · rw [if_neg (fun h => hx (hmem.mp h)), if_neg hx]

/-- C2: fix a (season, date) group of the standings with a unique row
`u` at position 17 (the safety rank).  `calculate_relegation_gaps` emits
exactly one gap record per row of the group, and each record carries
gap = safety points minus the team's points, games-in-hand = (maximum
games played by any team in the group) minus the team's games played,
and adjusted gap = gap - 3 x games-in-hand. -/
theorem relegation_gaps_formula (standings : List SRow) (s : String) (d : Nat) (u : SRow)
    (hu : u ∈ standings) (hus : u.season = s) (hud : u.date = d) (hup : u.position = 17)
    (huniq : ∀ v ∈ standings, v.season = s → v.date = d → v.position = 17 → v = u) :
    ((calculate_relegation_gaps standings).filter
        fun g => decide (g.season = s ∧ g.date = d)).length =
      (standings.filter fun r => decide (r.season = s ∧ r.date = d)).length ∧
    (∀ r ∈ standings, r.season = s → r.date = d →
      ∃ gr ∈ (calculate_relegation_gaps standings).filter
          fun g => decide (g.season = s ∧ g.date = d),
        gr.team = r.team ∧ gr.position = r.position ∧ gr.points = r.points ∧
        gr.gapTo17 = u.points - r.points ∧
        gr.gamesInHand = (listMaxN ((standings.filter
          fun x => decide (x.season = s ∧ x.date = d)).map (·.played)) : Int) - r.played ∧
        gr.gamesInHandAdjusted = gr.gapTo17 - gr.gamesInHand * 3) ∧
    (∀ gr ∈ (calculate_relegation_gaps standings).filter
        fun g => decide (g.season = s ∧ g.date = d),
      ∃ r ∈ standings, r.season = s ∧ r.date = d ∧ gr.team = r.team ∧
        gr.gapTo17 = u.points - r.points ∧
        gr.gamesInHand = (listMaxN ((standings.filter
          fun x => decide (x.season = s ∧ x.date = d)).map (·.played)) : Int) - r.played ∧
        gr.gamesInHandAdjusted = gr.gapTo17 - gr.gamesInHand * 3) := by
  have hx : ∃ r ∈ standings, r.season = s ∧ r.date = d := ⟨u, hu, hus, hud⟩
  have hloc := gaps_filter_key standings s d
  rw [if_pos hx] at hloc
  have humem : u ∈ sortByKey (fun r : SRow => r.position)
      (standings.filter fun r => decide (r.season = s ∧ r.date = d)) :=
    (sortByKey_mem _ _ u).mpr (List.mem_filter.mpr ⟨hu, by simp [hus, hud]⟩)
  have hfindSome : ((sortByKey (fun r : SRow => r.position)
      (standings.filter fun r => decide (r.season = s ∧ r.date = d))).find?
        fun r => decide (r.position = 17)).isSome :=
    List.find?_isSome.mpr ⟨u, humem, by simp [hup]⟩
  obtain ⟨w, hw⟩ := Option.isSome_iff_exists.mp hfindSome
  have hwp : w.position = 17 := by simpa using List.find?_some hw
  have hwmem' := (sortByKey_mem _ _ w).mp (List.mem_of_find?_eq_some hw)
  have hwmem : w ∈ standings := List.mem_of_mem_filter hwmem'
  have hwkey : w.season = s ∧ w.date = d := by
    simpa using (List.mem_filter.mp hwmem').2
  have hwu : w = u := huniq w hwmem hwkey.1 hwkey.2 hwp
  subst hwu
  have hmp : listMaxN ((sortByKey (fun r : SRow => r.position)
      (standings.filter fun r => decide (r.season = s ∧ r.date = d))).map (·.played)) =
      listMaxN ((standings.filter
        fun x => decide (x.season = s ∧ x.date = d)).map (·.played)) :=
    listMaxN_perm ((sortByKey_perm _ _).map _)
  have hout : (calculate_relegation_gaps standings).filter
      (fun g => decide (g.season = s ∧ g.date = d)) =
      (sortByKey (fun r : SRow => r.position)
        (standings.filter fun r => decide (r.season = s ∧ r.date = d))).map
        (mkGap w.points (listMaxN ((sortByKey (fun r : SRow => r.position)
          (standings.filter fun r => decide (r.season = s ∧ r.date = d))).map
            (·.played)))) := by
    rw [hloc]
    simp only [gapsForGroup]
    rw [hw]
  refine ⟨?_, ?_, ?_⟩
  · rw [hout, List.length_map, (sortByKey_perm _ _).length_eq]
  · intro r hr hrs hrd
    have hrmem : r ∈ sortByKey (fun r : SRow => r.position)
        (standings.filter fun r => decide (r.season = s ∧ r.date = d)) :=
      (sortByKey_mem _ _ r).mpr (List.mem_filter.mpr ⟨hr, by simp [hrs, hrd]⟩)
    refine ⟨_, by rw [hout]; exact List.mem_map_of_mem _ hrmem,
      rfl, rfl, rfl, rfl, ?_, rfl⟩
    show (_ : Int) - (r.played : Int) = _
    rw [hmp]
  · intro gr hgr
    rw [hout] at hgr
    rcases List.mem_map.mp hgr with ⟨r, hrmem, hgr'⟩
    have hrg := List.mem_filter.mp ((sortByKey_mem _ _ r).mp hrmem)
    have hrkey : r.season = s ∧ r.date = d := by simpa using hrg.2
    subst hgr'
    refine ⟨r, hrg.1, hrkey.1, hrkey.2, rfl, rfl, ?_, rfl⟩
    show (_ : Int) - (r.played : Int) = _
    rw [hmp]

/-- Witness for C2 at a concrete 17-team standings group. -/
theorem relegation_gaps_formula_witness :
    ((calculate_relegation_gaps standings17).filter
        fun g => decide (g.season = "S" ∧ g.date = 1)).length =
      (standings17.filter fun r => decide (r.season = "S" ∧ r.date = 1)).length :=
  (relegation_gaps_formula standings17 "S" 1 (srow17 17)
    (by decide) rfl rfl rfl (by decide)).1

theorem dedup_all_eq {α : Type} [DecidableEq α] (c : α) :
    ∀ l : List α, (∀ x ∈ l, x = c) → l ≠ [] → l.dedup = [c]
  | [], _, hne => absurd rfl hne
  | a :: l, h, _ => by
    have ha : a = c := h a (List.mem_cons_self _ _)
    subst ha
    cases l with
    | nil => simp
    | cons b l' =>
      have hb : b = a := (h b (by simp)).trans (h a (by simp)).symm
      have hmem : a ∈ b :: l' := hb ▸ List.mem_cons_self _ _
      rw [List.dedup_cons_of_mem hmem]
      exact dedup_all_eq a (b :: l') (fun x hx => h x (List.mem_cons_of_mem _ hx)) (by simp)

/-- `calculate_relegation_gaps` restricted to a single (season, date)
group computes just that group. -/
theorem gaps_restrict (standings : List SRow) (s' : String) (d' : Nat) :
    calculate_relegation_gaps
        (standings.filter fun r => decide (r.season = s' ∧ r.date = d')) =
      if ∃ r ∈ standings, r.season = s' ∧ r.date = d' then
        gapsForGroup (standings.filter fun r => decide (r.season = s' ∧ r.date = d'))
      else [] := by
  by_cases hx : ∃ r ∈ standings, r.season = s' ∧ r.date = d'
  · rw [if_pos hx, calculate_relegation_gaps]
    have hkeys : ∀ x ∈ (standings.filter
        fun r => decide (r.season = s' ∧ r.date = d')).map
          (fun r : SRow => (r.season, r.date)), x = (s', d') := by
      intro x hx'
      rcases List.mem_map.mp hx' with ⟨r, hr, hrx⟩
      have := (List.mem_filter.mp hr).2
      simp only [decide_eq_true_eq] at this
      rw [← hrx, this.1, this.2]
    have hGne : (standings.filter fun r => decide (r.season = s' ∧ r.date = d')) ≠ [] := by
      obtain ⟨r, hr, h1, h2⟩ := hx
      intro h
      have : r ∈ standings.filter fun r => decide (r.season = s' ∧ r.date = d') :=
        List.mem_filter.mpr ⟨hr, by simp [h1, h2]⟩
      rw [h] at this
      cases this
    have hmapne : (standings.filter fun r => decide (r.season = s' ∧ r.date = d')).map
        (fun r : SRow => (r.season, r.date)) ≠ [] := by
      simpa using hGne
    rw [dedup_all_eq (s', d') _ hkeys hmapne,
      List.perm_singleton.mp (sortByKey_perm (fun k : String × Nat => toLex (k.1, k.2))
        [(s', d')]),
      List.flatMap_cons, List.flatMap_nil, List.append_nil,
      List.filter_filter]
    congr 1
    rw [List.filter_congr]
    intro r _
    simp
  · have hGnil : standings.filter (fun r => decide (r.season = s' ∧ r.date = d')) = [] := by
      rw [List.filter_eq_nil_iff]
      intro r hr
      simp only [decide_eq_true_eq]
      exact fun h => hx ⟨r, hr, h⟩
    rw [if_neg hx, hGnil, calculate_relegation_gaps]
    rw [show (([] : List SRow).map fun r => (r.season, r.date)) = [] from rfl]
    rw [show (([] : List (String × Nat)).dedup) = [] from rfl,
      (sortByKey_eq_nil _ _).mpr rfl]
    rfl

/-- C9: a (season, date) standings group with no row at position 17 is
skipped entirely by `calculate_relegation_gaps` — it contributes no gap
records and no substitute safety line is used — while every (season,
date) group's output depends only on that group's rows. -/
theorem gaps_skip_without_position17 (standings : List SRow) (s : String) (d : Nat)
    (hnone : ∀ r ∈ standings, r.season = s → r.date = d → r.position ≠ 17) :
    (calculate_relegation_gaps standings).filter
        (fun g => decide (g.season = s ∧ g.date = d)) = [] ∧
    ∀ (s' : String) (d' : Nat),
      (calculate_relegation_gaps standings).filter
          (fun g => decide (g.season = s' ∧ g.date = d')) =
        calculate_relegation_gaps
          (standings.filter fun r => decide (r.season = s' ∧ r.date = d')) := by
  constructor
  · rw [gaps_filter_key]
    by_cases hx : ∃ r ∈ standings, r.season = s ∧ r.date = d
    · rw [if_pos hx]
      have hfind : ((sortByKey (fun r : SRow => r.position)
          (standings.filter fun r => decide (r.season = s ∧ r.date = d))).find?
            fun r => decide (r.position = 17)) = none := by
        rw [List.find?_eq_none]
        intro x hx'
        have hxf := List.mem_filter.mp ((sortByKey_mem _ _ x).mp hx')
        have hk : x.season = s ∧ x.date = d := by simpa using hxf.2
        simpa using hnone x hxf.1 hk.1 hk.2
      simp only [gapsForGroup]
      rw [hfind]
    · rw [if_neg hx]
  · intro s' d'
    rw [gaps_filter_key, gaps_restrict]

/-- Witness for C9 at a concrete 3-team group (no position 17). -/
theorem gaps_skip_without_position17_witness :
    (calculate_relegation_gaps standings3).filter
        (fun g => decide (g.season = "S" ∧ g.date = 1)) = [] ∧
    (calculate_relegation_gaps standings3).filter
        (fun g => decide (g.season = "X" ∧ g.date = 7)) =
      calculate_relegation_gaps
        (standings3.filter fun r => decide (r.season = "X" ∧ r.date = 7)) :=
  ⟨(gaps_skip_without_position17 standings3 "S" 1 (by decide)).1,
   (gaps_skip_without_position17 standings3 "S" 1 (by decide)).2 "X" 7⟩

/-- C3: fix a (season, team) whose last row in the final standings is
`r`.  `mark_survivors` labels every one of its gap records with
`gap_to_17th > 0` with the single value `final position ≤ 17` — so a
team finishing exactly at position 17 is labeled survived — and labels
every record with `gap_to_17th ≤ 0` with `None`. -/
theorem survivors_labels (gaps : List GapRow) (fs : List SRow) (s t : String) (r : SRow)
    (hlast : lastRowFor fs s t = some r) :
    (∀ m ∈ mark_survivors gaps fs, m.gapTo17 ≤ 0 → m.eventuallySurvived = none) ∧
    (∀ m ∈ mark_survivors gaps fs, m.season = s → m.team = t → 0 < m.gapTo17 →
      m.eventuallySurvived = some (decide (r.position ≤ 17))) ∧
    (r.position = 17 → ∀ m ∈ mark_survivors gaps fs, m.season = s → m.team = t →
      0 < m.gapTo17 → m.eventuallySurvived = some true) := by
  have hmain : ∀ m ∈ mark_survivors gaps fs, m.season = s → m.team = t → 0 < m.gapTo17 →
      m.eventuallySurvived = some (decide (r.position ≤ 17)) := by
    intro m hm hms hmt hgap
    rcases List.mem_map.mp hm with ⟨g, _, hmg⟩
    subst hmg
    simp only [mark_survivors] at hms hmt hgap ⊢
    rw [if_pos hgap]
    have : g.season = s := hms
    have ht : g.team = t := hmt
    rw [this, ht, hlast]
    rfl
  refine ⟨?_, hmain, ?_⟩
  · intro m hm hgap
    rcases List.mem_map.mp hm with ⟨g, _, hmg⟩
    subst hmg
    simp only at hgap
    simp only [mark_survivors]
    rw [if_neg (by omega)]
  · intro hpos m hm hms hmt hgap
    rw [hmain m hm hms hmt hgap, hpos]
    rfl

unseal String.ltb List.merge List.mergeSort in
/-- Witness for C3 at a one-team final table (final position exactly 17)
and two gap rows (one in danger, one safe). -/
theorem survivors_labels_witness :
    lastRowFor demoFinal "S" "A" = some
      { season := "S", date := 9, team := "A", points := 30, goalsFor := 20
        goalsAgainst := 40, goalDiff := -20, played := 38, position := 17 } ∧
    (∀ m ∈ mark_survivors demoGaps demoFinal, m.gapTo17 ≤ 0 →
      m.eventuallySurvived = none) ∧
    (∀ m ∈ mark_survivors demoGaps demoFinal, m.season = "S" → m.team = "A" →
      0 < m.gapTo17 → m.eventuallySurvived = some true) := by
  have h := survivors_labels demoGaps demoFinal "S" "A"
    { season := "S", date := 9, team := "A", points := 30, goalsFor := 20
      goalsAgainst := 40, goalDiff := -20, played := 38, position := 17 }
    (by decide)
  exact ⟨by decide, h.1, h.2.2 rfl⟩

/-- C10: a gap record with `gap_to_17th > 0` whose (season, team) has no
row at all in the final standings is labeled `eventually_survived =
False` (not `None`): the lookup's default silently marks the team
relegated, and no error is raised. -/
theorem survivors_missing_team_false (gaps : List GapRow) (fs : List SRow) (s t : String)
    (habs : ∀ x ∈ fs, ¬(x.season = s ∧ x.team = t)) :
    ∀ m ∈ mark_survivors gaps fs, m.season = s → m.team = t → 0 < m.gapTo17 →
      m.eventuallySurvived = some false := by
  have hlast : lastRowFor fs s t = none := by
    rw [lastRowFor]
    have : (sortByKey (fun r : SRow => toLex (r.season, r.date)) fs).filter
        (fun r => decide (r.season = s ∧ r.team = t)) = [] := by
      rw [List.filter_eq_nil_iff]
      intro x hx
      simpa using habs x ((sortByKey_mem _ _ x).mp hx)
    rw [this]
    rfl
  intro m hm hms hmt hgap
  rcases List.mem_map.mp hm with ⟨g, _, hmg⟩
  subst hmg
  simp only [mark_survivors] at hms hmt hgap ⊢
  rw [if_pos hgap, hms, hmt, hlast]
  rfl

unseal String.ltb List.merge List.mergeSort in
/-- Witness for C10: gap rows of a team absent from the final table. -/
theorem survivors_missing_team_false_witness :
    (∀ x ∈ demoFinal, ¬(x.season = "S" ∧ x.team = "Z")) ∧
    (∀ m ∈ mark_survivors
        [{ season := "S", date := 5, team := "Z", position := 18, points := 10
           played := 20, gapTo17 := 3, gamesInHand := 0, gamesInHandAdjusted := 3 }]
        demoFinal,
      m.season = "S" → m.team = "Z" → 0 < m.gapTo17 →
        m.eventuallySurvived = some false) :=
  ⟨by decide, survivors_missing_team_false _ demoFinal "S" "Z" (by decide)⟩

unseal String.ltb List.merge List.mergeSort in
/-- Witness for C7: in `demoLong2`, team `B` does not play on date 2 but
has a record from date 1, so it has exactly one (forward-filled)
standings row on date 2. -/
theorem standings_forward_fill_rows_witness :
    (create_standings_snapshots (calculate_cumulative_stats demoLong2)).countP
      (fun r => decide (r.season = "S" ∧ r.date = 2 ∧ r.team = "B")) = 1 :=
  (standings_forward_fill_rows (calculate_cumulative_stats demoLong2) "S" 2 "B"
    (by decide)).1 (by decide)

/-- C8: on matches whose outcome codes lie in `{H, D, A}`,
`matches_to_long_format` outputs exactly `2 × N` rows — a permutation of
one home-perspective and one away-perspective row per match — and the
points mapping is exact: home earns 3/1/0 and away the complementary
0/1/3 for `H`/`D`/`A`, both sides earn 1 on a draw, and the two sides'
points sum to 3 otherwise. -/
theorem long_format_two_rows_per_match (df : List MatchRow)
    (h : ∀ m ∈ df, m.ftr = 'H' ∨ m.ftr = 'D' ∨ m.ftr = 'A') :
    (matches_to_long_format df).length = 2 * df.length ∧
    List.Perm (matches_to_long_format df) (df.map homeRow ++ df.map awayRow) ∧
    ∀ m ∈ df, ∃ hp ap : Int, ptsHome m.ftr = some hp ∧ ptsAway m.ftr = some ap ∧
      (m.ftr = 'H' → hp = 3 ∧ ap = 0) ∧
      (m.ftr = 'D' → hp = 1 ∧ ap = 1) ∧
      (m.ftr = 'A' → hp = 0 ∧ ap = 3) ∧
      (m.ftr ≠ 'D' → hp + ap = 3) := by
  refine ⟨?_, sortByKey_perm _ _, ?_⟩
  · have hl := (sortByKey_perm
      (fun r : TeamResult => toLex (r.season, toLex (r.date, r.team)))
      (df.map homeRow ++ df.map awayRow)).length_eq
    simp only [matches_to_long_format, hl, List.length_append, List.length_map]
    omega
  · intro m hm
    rcases h m hm with hc | hc | hc
    · exact ⟨3, 0, by simp [ptsHome, hc], by simp [ptsAway, hc],
        fun _ => ⟨rfl, rfl⟩, by simp [hc], by simp [hc], fun _ => by norm_num⟩
    · exact ⟨1, 1, by simp [ptsHome, hc], by simp [ptsAway, hc],
        by simp [hc], fun _ => ⟨rfl, rfl⟩, by simp [hc], fun hd => absurd hc hd⟩
    · exact ⟨0, 3, by simp [ptsHome, hc], by simp [ptsAway, hc],
        by simp [hc], by simp [hc], fun _ => ⟨rfl, rfl⟩, fun _ => by norm_num⟩

theorem groupOnly_chain_cumPts :
    ∀ (l pre : List LongRow), (∀ r ∈ l, 0 ≤ r.pts) →
      List.Chain' (fun a b : CumRow => a.cumPts ≤ b.cumPts) (groupOnly cumF pre l)
  | [], _, _ => List.chain'_nil
  | [_], _, _ => by simp [groupOnly]
  | r :: r' :: rs, pre, h => by
    rw [groupOnly, groupOnly, List.chain'_cons]
    refine ⟨?_, ?_⟩
    · have h' : 0 ≤ r'.pts := h r' (by simp)
      simp only [cumF, List.map_append, List.sum_append, List.map_cons, List.sum_cons,
        List.map_nil, List.sum_nil]
      linarith
    · rw [show cumF r' (pre ++ [r]) :: groupOnly cumF ((pre ++ [r]) ++ [r']) rs =
        groupOnly cumF (pre ++ [r]) (r' :: rs) from rfl]
      exact groupOnly_chain_cumPts (r' :: rs) (pre ++ [r])
        (fun x hx => h x (List.mem_cons_of_mem _ hx))

/-- The filtered restriction of `calculate_cumulative_stats` to one
(season, team) group is the group-only prefix computation over the
sorted, filtered input rows. -/
theorem cumulative_stats_filter (df : List LongRow) (s t : String) :
    (calculate_cumulative_stats df).filter (fun r => decide (r.season = s ∧ r.team = t)) =
      groupOnly cumF []
        ((sortByKey (fun r : LongRow => toLex (r.season, toLex (r.team, r.date))) df).filter
          fun x => decide (x.season = s ∧ x.team = t)) := by
  have h := grouped_filter (fun r : LongRow => (r.season, r.team)) cumF
    (fun b : CumRow => (b.season, b.team)) (fun _ _ => rfl) (s, t)
    (sortByKey (fun r : LongRow => toLex (r.season, toLex (r.team, r.date))) df) []
  have e1 : (fun b : CumRow => decide (b.season = s ∧ b.team = t)) =
      (fun b : CumRow => decide ((b.season, b.team) = (s, t))) := by
    funext b; exact decide_eq_decide.mpr (by simp)
  have e2 : (fun x : LongRow => decide (x.season = s ∧ x.team = t)) =
      (fun x : LongRow => decide ((x.season, x.team) = (s, t))) := by
    funext x; exact decide_eq_decide.mpr (by simp)
  rw [calculate_cumulative_stats, e1, h, e2]
  rfl

/-- C6: fix a (season, team).  The rows of `calculate_cumulative_stats`
for that group appear in date order; along them the cumulative points
are non-decreasing (per-match points being non-negative), the
games-played counter is exactly 1, 2, ..., N (1-based, incrementing by
one per match), and every output row satisfies
`CumGD = CumGF - CumGA` in exact integer arithmetic. -/
theorem cumulative_stats_invariants (df : List LongRow) (s t : String)
    (hpts : ∀ r ∈ df, 0 ≤ r.pts) :
    List.Chain' (fun a b : CumRow => a.date ≤ b.date)
      ((calculate_cumulative_stats df).filter fun r => decide (r.season = s ∧ r.team = t)) ∧
    List.Chain' (fun a b : CumRow => a.cumPts ≤ b.cumPts)
      ((calculate_cumulative_stats df).filter fun r => decide (r.season = s ∧ r.team = t)) ∧
    ((calculate_cumulative_stats df).filter
        fun r => decide (r.season = s ∧ r.team = t)).map (·.played) =
      List.range' 1 ((calculate_cumulative_stats df).filter
        fun r => decide (r.season = s ∧ r.team = t)).length ∧
    ∀ r ∈ calculate_cumulative_stats df, r.cumGD = r.cumGF - r.cumGA := by
  have hfilter := cumulative_stats_filter df s t
  set lf := (sortByKey (fun r : LongRow => toLex (r.season, toLex (r.team, r.date))) df).filter
    (fun x => decide (x.season = s ∧ x.team = t)) with hlf
  have hkeys : ∀ x ∈ lf, x.season = s ∧ x.team = t := by
    intro x hx
    have := (List.mem_filter.mp hx).2
    simpa using this
  have hpair : lf.Pairwise (fun a b : LongRow => a.date ≤ b.date) := by
    have hp := (sortByKey_pairwise
      (fun r : LongRow => toLex (r.season, toLex (r.team, r.date))) df).filter
      (fun x => decide (x.season = s ∧ x.team = t))
    refine hp.imp_of_mem ?_
    intro a b ha hb hab
    have hka := hkeys a ha
    have hkb := hkeys b hb
    have h1 := lex_le_tail hab (hka.1.trans hkb.1.symm)
    exact lex_le_tail h1 (hka.2.trans hkb.2.symm)
  refine ⟨?_, ?_, ?_, ?_⟩
  · rw [hfilter]
    exact groupOnly_chain_of_pairwise cumF _ (fun a b : LongRow => a.date ≤ b.date)
      (fun a b _ _ hab => hab) lf [] hpair
  · rw [hfilter]
    refine groupOnly_chain_cumPts lf [] ?_
    intro r hr
    exact hpts r ((sortByKey_mem _ df r).mp (List.mem_of_mem_filter hr))
  · rw [hfilter, groupOnly_length,
      groupOnly_map_count cumF (fun b : CumRow => b.played) (fun _ _ => rfl) lf []]
    rfl
  · intro r hr
    exact grouped_forall _ cumF (fun b : CumRow => b.cumGD = b.cumGF - b.cumGA)
      (fun _ _ => rfl) _ [] r hr

/-- Witness for C6 at the concrete frame `demoLong`, group (S, A). -/
theorem cumulative_stats_invariants_witness :
    (∀ r ∈ demoLong, 0 ≤ r.pts) ∧
    ((calculate_cumulative_stats demoLong).filter
        fun r => decide (r.season = "S" ∧ r.team = "A")).map (·.played) =
      List.range' 1 ((calculate_cumulative_stats demoLong).filter
        fun r => decide (r.season = "S" ∧ r.team = "A")).length :=
  ⟨by decide, (cumulative_stats_invariants demoLong "S" "A" (by decide)).2.2.1⟩

/-- Witness for C8 at a concrete three-match frame. -/
theorem long_format_two_rows_per_match_witness :
    (∀ m ∈ demoMatches, m.ftr = 'H' ∨ m.ftr = 'D' ∨ m.ftr = 'A') ∧
    (matches_to_long_format demoMatches).length = 2 * demoMatches.length :=
  ⟨by decide, (long_format_two_rows_per_match demoMatches (by decide)).1⟩

unseal String.ltb List.merge List.mergeSort in
/-- C5 counterexample: the record `m0` (outcome code `H`, score 0-2)
passes the loader's result-code validation untouched, and the match
expander still derives both of its team-result rows — the claim that no
rows derived from such a record appear in the output is false. -/
theorem expander_keeps_mismatched_record :
    outcomeMismatch m0 ∧ 0 ≤ m0.fthg ∧ 0 ≤ m0.ftag ∧
    validateResults [m0] = [m0] ∧
    homeRow m0 ∈ matches_to_long_format (validateResults [m0]) ∧
    awayRow m0 ∈ matches_to_long_format (validateResults [m0]) ∧
    (matches_to_long_format (validateResults [m0])).length = 2 * [m0].length := by
  decide

unseal String.ltb List.merge List.mergeSort in
/-- C5 amended: neither the loader nor the match expander validates goal
counts or outcome/score agreement.  A record with negative goals or a
mismatched outcome code, as long as its code is one of `{H, D, A}` and
the file passes the loader's bulk result-code check, contributes both of
its team-result rows to the expander's output; the only record-level
dropping in the pipeline is the loader's removal of rows whose result
code is outside `{H, D, A}`. -/
theorem expander_no_validation (df : List MatchRow) (m : MatchRow)
    (hm : m ∈ df)
    (hmal : m.fthg < 0 ∨ m.ftag < 0 ∨ outcomeMismatch m)
    (hcode : m.ftr = 'H' ∨ m.ftr = 'D' ∨ m.ftr = 'A')
    (hfile : 2 * df.countP (fun x => !validResult x) ≤ df.length) :
    homeRow m ∈ matches_to_long_format (validateResults df) ∧
    awayRow m ∈ matches_to_long_format (validateResults df) := by
  have hv : validateResults df = df.filter validResult := by
    unfold validateResults
    rw [if_neg (by omega)]
  have hmem : m ∈ df.filter validResult :=
    List.mem_filter.mpr ⟨hm, by simpa [validResult] using hcode⟩
  constructor
  · rw [matches_to_long_format, sortByKey_mem, hv]
    exact List.mem_append_left _ (List.mem_map_of_mem homeRow hmem)
  · rw [matches_to_long_format, sortByKey_mem, hv]
    exact List.mem_append_right _ (List.mem_map_of_mem awayRow hmem)

/-- Witness for the amended C5 at the concrete record `m0`. -/
theorem expander_no_validation_witness :
    homeRow m0 ∈ matches_to_long_format (validateResults [m0, m0]) ∧
    awayRow m0 ∈ matches_to_long_format (validateResults [m0, m0]) :=
  expander_no_validation [m0, m0] m0 (by decide) (by decide) (by decide) (by decide)

unseal String.ltb List.merge List.mergeSort in
/-- C4: evaluating the pipeline on `demoLong` (team `A` plays twice on
date 1).  The standings row of team `A` reports goal difference 2 while
goals for minus goals against is `2 - 3 = -1`: the per-column `max`
aggregation of `team_dates` mixes the first match's goal difference with
the second match's goals against, so the row is not the post-match
totals of the team's last match of the date and violates
`goal_difference = goals_for - goals_against`. -/
theorem standings_gd_mismatch_on_double_matchday :
    ((create_standings_snapshots (calculate_cumulative_stats demoLong)).filter
        fun r => decide (r.team = "A")).map
      (fun r => (r.goalDiff, r.goalsFor, r.goalsAgainst)) = [(2, 2, 3)] ∧
    ∃ r ∈ create_standings_snapshots (calculate_cumulative_stats demoLong),
      ¬ r.goalDiff = r.goalsFor - r.goalsAgainst := by
  decide

end MindTheGap
